import Mathlib

/-!
Shallow embedding of the wager-economics module of `src/main.py`
(the "Stealie" Telegram bot): the grading ladder `grade_from_confidence`,
the expected-value estimator `estimate_ev`, the line-comparison helper
`compare_lines_across_books`, and the sharpness heuristic
`compute_sharp_score`.  Numeric values are modelled exactly: Python
floats become rationals (reals only where the source takes a square
root), and Python's `round(x, 4)` becomes an exact round-half-to-even
at four decimal places.
-/

/-- Round-half-to-even of a single value, as Python's builtin `round`
resolves ties: below the midpoint round down, above it round up,
at the midpoint round to the even integer. -/
def roundHalfEven {α : Type} [LinearOrderedField α] [FloorRing α] (q : α) : ℤ :=
  if q - ⌊q⌋ < 1 / 2 then ⌊q⌋
  else if 1 / 2 < q - ⌊q⌋ then ⌊q⌋ + 1
  else if ⌊q⌋ % 2 = 0 then ⌊q⌋ else ⌊q⌋ + 1

/-- Python's `round(x, 4)`: round half-to-even at four decimal places. -/
def round4 {α : Type} [LinearOrderedField α] [FloorRing α] (x : α) : α :=
  ((roundHalfEven (x * 10000) : ℤ) : α) / 10000

/-- `statistics.mean`: sum divided by length.  The source only ever
calls it on non-empty lists. -/
def mean {α : Type} [DivisionRing α] (l : List α) : α :=
  l.sum / (l.length : α)

/-- `grade_from_confidence` (src/main.py lines 239-252): the fixed
threshold ladder 0.85 / 0.7 / 0.55 / 0.4 mapping a confidence to one of
the five grades A-F. -/
def grade_from_confidence (conf : ℚ) : String :=
  if 0.85 ≤ conf then "A"
  else if 0.7 ≤ conf then "B"
  else if 0.55 ≤ conf then "C"
  else if 0.4 ≤ conf then "D"
  else "F"

/-- `estimate_ev` (src/main.py lines 254-263):
`ev = (confidence * (decimal_odds - 1.0)) - (1.0 - confidence)`,
returned as `round(ev, 4)`.  The `try/except` of the source is
unreachable for numeric arguments, so the embedding is the plain
rounded formula. -/
def estimate_ev (confidence decimal_odds : ℚ) : ℚ :=
  round4 (confidence * (decimal_odds - 1) - (1 - confidence))

/-- Modelled from the spec: no Kelly stake-sizing function exists in
`src/main.py`; this follows §4.1 of the spec word for word:
`b = decimalOdds - 1`; if `b <= 0` the result is 0, otherwise
`edge / b` clamped to the closed interval [0, 1]. -/
def kellyFraction (edge decimalOdds : ℚ) : ℚ :=
  let b := decimalOdds - 1
  if b ≤ 0 then 0 else max 0 (min 1 (edge / b))

/-! ### Data model

The nested JSON shape delivered by the odds API and consumed by
`compare_lines_across_books` (src/main.py lines 155-179): a game holds
bookmakers, each bookmaker holds markets keyed by a string
("spreads" / "totals" / "h2h"), each market holds outcomes.  An
outcome's `point` and `price` are optional: `none` models an absent or
non-numeric JSON field, exactly what the source's
`isinstance(pt, (int, float))` guards skip. -/

structure Outcome where
  name : String
  point : Option ℚ
  price : Option ℚ

structure Market where
  key : String
  outcomes : List Outcome

structure Bookmaker where
  title : String
  markets : List Market

structure Game where
  home_team : String
  away_team : String
  bookmakers : List Bookmaker

/-- `spreads`: team -> list of (book, point), in first-seen order, as a
Python dict built with `setdefault(...).append(...)`. -/
abbrev SpreadMap := List (String × List (String × ℚ))

/-- One h2h market's `prices` dict: outcome name -> price. -/
abbrev PriceMap := List (String × Option ℚ)

/-- Result shape of `compare_lines_across_books`. -/
structure Comp where
  spreads : SpreadMap
  totals : List (String × ℚ)
  h2h : List (String × PriceMap)

/-- `d.setdefault(k, []).append(v)` on an insertion-ordered dict of
lists: append to the existing entry, else add a new key at the end. -/
def appendAssoc {β : Type} (d : List (String × List β)) (k : String) (v : β) :
    List (String × List β) :=
  match d with
  | [] => [(k, [v])]
  | (k', vs) :: rest =>
      if k' = k then (k', vs ++ [v]) :: rest else (k', vs) :: appendAssoc rest k v

/-- `d[k] = v` on an insertion-ordered dict: overwrite in place, else
add a new key at the end. -/
def upsert (d : PriceMap) (k : String) (v : Option ℚ) : PriceMap :=
  match d with
  | [] => [(k, v)]
  | (k', v') :: rest =>
      if k' = k then (k', v) :: rest else (k', v') :: upsert rest k v

/-- The spreads branch of `compare_lines_across_books`: record a
numeric spread point under its team, skip a missing point. -/
def spreadInsert (bname : String) (s : SpreadMap) (o : Outcome) : SpreadMap :=
  match o.point with
  | some pt => appendAssoc s o.name (bname, pt)
  | none => s

/-- One market of one bookmaker inside the loop of
`compare_lines_across_books` (src/main.py lines 162-178): three
independent `if` branches on the market key. -/
def marketStep (bname : String) (comp : Comp) (m : Market) : Comp :=
  let c1 := if m.key = "spreads" then
      { comp with spreads := m.outcomes.foldl (spreadInsert bname) comp.spreads }
    else comp
  let c2 := if m.key = "totals" then
      { c1 with totals :=
          c1.totals ++ m.outcomes.filterMap (fun o => o.point.map (fun pt => (bname, pt))) }
    else c1
  if m.key = "h2h" then
    { c2 with h2h :=
        c2.h2h ++ [(bname, m.outcomes.foldl (fun pr o => upsert pr o.name o.price) [])] }
  else c2

/-- One bookmaker inside the loop of `compare_lines_across_books`. -/
def bookStep (comp : Comp) (b : Bookmaker) : Comp :=
  b.markets.foldl (marketStep b.title) comp

/-- `compare_lines_across_books` (src/main.py lines 155-179): collect
spreads grouped by team, the flat totals list, and one price dict per
h2h market. -/
def compare_lines_across_books (game : Game) : Comp :=
  game.bookmakers.foldl bookStep ⟨[], [], []⟩

/-! ### compute_sharp_score (src/main.py lines 181-234) -/

/-- Population variance: mean of squared deviations from the mean. -/
def pvariance (l : List ℚ) : ℚ :=
  mean (l.map (fun x => (x - mean l) ^ 2))

/-- `statistics.pstdev`: the real square root of the population
variance. -/
noncomputable def pstdev (l : List ℚ) : ℝ :=
  Real.sqrt ((pvariance l : ℚ) : ℝ)

/-- The `all_means` list of `compute_sharp_score` (src/main.py lines
196-206): for each team of the spreads dict whose value list is
non-empty, the absolute value of the mean of its points. -/
def all_meansOf (spreads : SpreadMap) : List ℚ :=
  spreads.filterMap (fun tp =>
    if tp.2.map Prod.snd = [] then none else some |mean (tp.2.map Prod.snd)|)

/-- The `all_std` list of `compute_sharp_score` (src/main.py lines
196-206): for each team with a non-empty value list, the population
standard deviation of its points when there are at least two of them,
else 0. -/
noncomputable def all_stdOf (spreads : SpreadMap) : List ℝ :=
  spreads.filterMap (fun tp =>
    if tp.2.map Prod.snd = [] then none
    else some (if 1 < (tp.2.map Prod.snd).length then pstdev (tp.2.map Prod.snd) else 0))

/-- `mean_abs = statistics.mean(all_means) if all_means else 99.0`. -/
def mean_absOf (g : Game) : ℚ :=
  if all_meansOf (compare_lines_across_books g).spreads = [] then 99
  else mean (all_meansOf (compare_lines_across_books g).spreads)

/-- `mean_std = statistics.mean(all_std) if all_std else 0.0`. -/
noncomputable def mean_stdOf (g : Game) : ℝ :=
  if (all_stdOf (compare_lines_across_books g).spreads).isEmpty then 0
  else mean (all_stdOf (compare_lines_across_books g).spreads)

/-- The `team_probs` dict of `compute_sharp_score` (src/main.py lines
213-217): group the numeric h2h prices by team, in first-seen order. -/
def teamProbs (h2h : List (String × PriceMap)) : List (String × List ℚ) :=
  h2h.foldl (fun tp bp =>
    bp.2.foldl (fun tpAcc tpr =>
      match tpr.2 with
      | some p => appendAssoc tpAcc tpr.1 p
      | none => tpAcc) tp) []

/-- One team's contribution to `ml_divergence` (src/main.py lines
218-226): `avg` is the mean of the team's prices; the implied
probability is `1/avg` when `avg` is non-zero (Python truthiness) and
above 1.01, else 0.5; the contribution is its absolute distance
from 0.5. -/
def mlContribution (tps : String × List ℚ) : ℚ :=
  |(if mean tps.2 ≠ 0 ∧ 1.01 < mean tps.2 then 1 / mean tps.2 else 0.5) - 0.5|

/-- The `ml_divergence` computation of `compute_sharp_score`
(src/main.py lines 209-228): 0 when there are no h2h entries;
otherwise sum the per-team contributions starting from 0 and divide by
the number of teams when there are any. -/
def ml_divergence (h2h : List (String × PriceMap)) : ℚ :=
  if h2h = [] then 0
  else
    let s := (teamProbs h2h).foldl (fun acc tps => acc + mlContribution tps) 0
    if teamProbs h2h ≠ [] then s / ((teamProbs h2h).length : ℚ) else s

/-- The un-rounded combination step of `compute_sharp_score`
(src/main.py line 230):
`score = (1.0 / (1.0 + mean_abs)) * (1.0 + mean_std * 1.2 + ml_divergence * 2.0)`. -/
noncomputable def rawScore (g : Game) : ℝ :=
  (1 / (1 + (mean_absOf g : ℝ))) *
    (1 + mean_stdOf g * 1.2 + (ml_divergence (compare_lines_across_books g).h2h : ℝ) * 2.0)

/-- `compute_sharp_score` (src/main.py lines 181-234): 0.0 when the
spreads dict is empty (no teams), otherwise the combined score rounded
to four decimal places.  The `try/except` of the source is unreachable
for well-formed records, every `statistics` call being guarded. -/
noncomputable def compute_sharp_score (g : Game) : ℝ :=
  if (compare_lines_across_books g).spreads = [] then 0
  else round4 (rawScore g)

/-! ### Definitions written from the spec's words, for comparison -/

/-- The moneyline step as the sentence of claim C3 describes it: each
observed decimal price is individually converted to an implied
probability (`1/price`, with prices at or below 1.01 replaced by 0.5),
the per-price probabilities are averaged per subject, and the result
is the average over subjects of the absolute distance from 0.5. -/
def mlDivergenceSpecC3 (h2h : List (String × PriceMap)) : ℚ :=
  if teamProbs h2h = [] then 0
  else ((teamProbs h2h).map (fun tps =>
      |mean (tps.2.map (fun p => if p ≤ 1.01 then (0.5 : ℚ) else 1 / p)) - 0.5|)).sum /
    ((teamProbs h2h).length : ℚ)

/-- Implied probability of a per-subject average price, as the code
actually computes it: `1/avg` when the average is non-zero and above
1.01, else 0.5. -/
def impliedProbOfAvg (avg : ℚ) : ℚ :=
  if avg ≠ 0 ∧ 1.01 < avg then 1 / avg else 0.5

/-- The moneyline step as the amended claim C3 describes it: average
the prices per subject first, convert the average to an implied
probability, and average the absolute distances from 0.5 over
subjects. -/
def mlDivergenceAvgFirst (h2h : List (String × PriceMap)) : ℚ :=
  if teamProbs h2h = [] then 0
  else ((teamProbs h2h).map (fun tps => |impliedProbOfAvg (mean tps.2) - 0.5|)).sum /
    ((teamProbs h2h).length : ℚ)

/-- The spread step as the sentence of claim C6 describes it: only
subjects whose spread is listed by two or more books contribute a mean
to the `all_means` list. -/
def all_meansSpecC6 (spreads : SpreadMap) : List ℚ :=
  spreads.filterMap (fun tp =>
    if 2 ≤ (tp.2.map Prod.snd).length then some |mean (tp.2.map Prod.snd)| else none)

/-- The spread step as the sentence of claim C6 describes it: only
subjects whose spread is listed by two or more books contribute a
population standard deviation to the `all_std` list. -/
noncomputable def all_stdSpecC6 (spreads : SpreadMap) : List ℝ :=
  spreads.filterMap (fun tp =>
    if 2 ≤ (tp.2.map Prod.snd).length then some (pstdev (tp.2.map Prod.snd)) else none)

/-! ### Concrete game records used as test inputs -/

/-- Two books quoting moneyline prices 1.0 and 3.0 for the same team,
plus one spread quote so that the sharp-score computation does not
take its empty-spreads early return. -/
def gameTwoPrices : Game :=
  ⟨"H", "A",
   [⟨"B1", [⟨"spreads", [⟨"T", some 0, none⟩]⟩, ⟨"h2h", [⟨"T", none, some 1⟩]⟩]⟩,
    ⟨"B2", [⟨"h2h", [⟨"T", none, some 3⟩]⟩]⟩]⟩

/-- A single book quoting a single spread point of 3 for one team. -/
def gameOneSpread : Game :=
  ⟨"H", "A", [⟨"B1", [⟨"spreads", [⟨"T", some 3, none⟩]⟩]⟩]⟩

/-- A single book quoting a single huge spread point of 20000. -/
def gameHugeSpread : Game :=
  ⟨"H", "A", [⟨"B1", [⟨"spreads", [⟨"T", some 20000, none⟩]⟩]⟩]⟩

/-! ### Facts about the rounding model -/

theorem rhe_eq_floor_or_succ {α : Type} [LinearOrderedField α] [FloorRing α] (q : α) :
    roundHalfEven q = ⌊q⌋ ∨ roundHalfEven q = ⌊q⌋ + 1 := by
  unfold roundHalfEven
  split_ifs <;> simp

theorem floor_le_rhe {α : Type} [LinearOrderedField α] [FloorRing α] (q : α) :
    ⌊q⌋ ≤ roundHalfEven q := by
  rcases rhe_eq_floor_or_succ q with h | h <;> omega

theorem rhe_sub_le {α : Type} [LinearOrderedField α] [FloorRing α] (q : α) :
    |(roundHalfEven q : α) - q| ≤ 1 / 2 := by
  have h1 : (⌊q⌋ : α) ≤ q := Int.floor_le q
  have h2 : q < (⌊q⌋ : α) + 1 := Int.lt_floor_add_one q
  unfold roundHalfEven
  split_ifs with ha hb hc <;> rw [abs_le] <;> push_cast <;> constructor <;> linarith

theorem rhe_mono {α : Type} [LinearOrderedField α] [FloorRing α] {x y : α} (hxy : x ≤ y) :
    roundHalfEven x ≤ roundHalfEven y := by
  have hfl : ⌊x⌋ ≤ ⌊y⌋ := Int.floor_le_floor hxy
  rcases eq_or_lt_of_le hfl with heq | hlt
  · have hr : x - (⌊x⌋ : α) ≤ y - (⌊y⌋ : α) := by
      rw [← heq]; linarith
    unfold roundHalfEven
    rw [← heq]
    split_ifs <;> first | omega | linarith
  · have h1 : roundHalfEven x ≤ ⌊x⌋ + 1 := by
      rcases rhe_eq_floor_or_succ x with h | h <;> omega
    have h2 : ⌊y⌋ ≤ roundHalfEven y := floor_le_rhe y
    omega

theorem round4_mono {α : Type} [LinearOrderedField α] [FloorRing α] {x y : α} (hxy : x ≤ y) :
    round4 x ≤ round4 y := by
  unfold round4
  have h : roundHalfEven (x * 10000) ≤ roundHalfEven (y * 10000) :=
    rhe_mono (by nlinarith)
  have h10 : (0 : α) < 10000 := by norm_num
  exact (div_le_div_iff_of_pos_right h10).mpr (by exact_mod_cast h)

theorem round4_abs_sub_le {α : Type} [LinearOrderedField α] [FloorRing α] (x : α) :
    |round4 x - x| ≤ 1 / 20000 := by
  have h := rhe_sub_le (α := α) (x * 10000)
  unfold round4
  have h10 : (0 : α) < 10000 := by norm_num
  rw [show ((roundHalfEven (x * 10000) : ℤ) : α) / 10000 - x
        = (((roundHalfEven (x * 10000) : ℤ) : α) - x * 10000) / 10000 by ring]
  rw [abs_div, abs_of_pos h10]
  rw [div_le_div_iff₀ h10 (by norm_num : (0 : α) < 20000)]
  nlinarith [h]

theorem round4_nonneg {α : Type} [LinearOrderedField α] [FloorRing α] {x : α} (hx : 0 ≤ x) :
    0 ≤ round4 x := by
  unfold round4
  have hfl : (0 : ℤ) ≤ ⌊x * 10000⌋ := Int.floor_nonneg.mpr (by nlinarith)
  have hle := floor_le_rhe (x * 10000)
  have hr : (0 : ℤ) ≤ roundHalfEven (x * 10000) := by omega
  have : (0 : α) ≤ ((roundHalfEven (x * 10000) : ℤ) : α) := by exact_mod_cast hr
  positivity

theorem round4_eq_of_lt_half {α : Type} [LinearOrderedField α] [FloorRing α]
    (x : α) (n : ℤ) (h1 : (n : α) ≤ x * 10000) (h2 : x * 10000 - n < 1 / 2) :
    round4 x = (n : α) / 10000 := by
  have hfl : ⌊x * 10000⌋ = n := by
    rw [Int.floor_eq_iff]
    exact ⟨h1, by linarith⟩
  unfold round4 roundHalfEven
  rw [hfl, if_pos (by linarith)]

theorem round4_eq_succ_of_gt_half {α : Type} [LinearOrderedField α] [FloorRing α]
    (x : α) (n : ℤ) (h1 : 1 / 2 < x * 10000 - n) (h2 : x * 10000 < (n : α) + 1) :
    round4 x = ((n : α) + 1) / 10000 := by
  have hfl : ⌊x * 10000⌋ = n := by
    rw [Int.floor_eq_iff]
    exact ⟨by linarith, by linarith⟩
  unfold round4 roundHalfEven
  rw [hfl, if_neg (by linarith), if_pos (by linarith)]
  push_cast
  ring

/-! ### Structure of the spreads dict -/

theorem foldl_spreadInsert_none (bname : String) :
    ∀ (os : List Outcome), (∀ o ∈ os, o.point = none) →
      ∀ s : SpreadMap, os.foldl (spreadInsert bname) s = s := by
  intro os
  induction os with
  | nil => intro _ s; rfl
  | cons a t ih =>
      intro h s
      rw [List.foldl_cons]
      have ha : spreadInsert bname s a = s := by
        unfold spreadInsert
        rw [h a (by simp)]
      rw [ha]
      exact ih (fun o ho => h o (by simp [ho])) s

theorem marketStep_spreads_eq (bname : String) (comp : Comp) (m : Market) :
    (marketStep bname comp m).spreads =
      if m.key = "spreads" then m.outcomes.foldl (spreadInsert bname) comp.spreads
      else comp.spreads := by
  unfold marketStep
  split_ifs <;> rfl

theorem foldl_marketStep_spreads (bname : String) :
    ∀ (ms : List Market),
      (∀ m ∈ ms, m.key = "spreads" → ∀ o ∈ m.outcomes, o.point = none) →
      ∀ comp : Comp, (ms.foldl (marketStep bname) comp).spreads = comp.spreads := by
  intro ms
  induction ms with
  | nil => intro _ comp; rfl
  | cons a t ih =>
      intro h comp
      rw [List.foldl_cons]
      rw [ih (fun m hm => h m (by simp [hm]))]
      rw [marketStep_spreads_eq]
      split_ifs with hk
      · exact foldl_spreadInsert_none bname a.outcomes (h a (by simp) hk) comp.spreads
      · rfl

theorem foldl_bookStep_spreads :
    ∀ (bs : List Bookmaker),
      (∀ b ∈ bs, ∀ m ∈ b.markets, m.key = "spreads" → ∀ o ∈ m.outcomes, o.point = none) →
      ∀ comp : Comp, (bs.foldl bookStep comp).spreads = comp.spreads := by
  intro bs
  induction bs with
  | nil => intro _ comp; rfl
  | cons a t ih =>
      intro h comp
      rw [List.foldl_cons]
      rw [ih (fun b hb => h b (by simp [hb]))]
      unfold bookStep
      exact foldl_marketStep_spreads a.title a.markets (h a (by simp)) comp

/-! ### Accumulation and non-negativity lemmas -/

theorem foldl_add_eq_sum {β : Type} (f : β → ℚ) :
    ∀ (l : List β) (acc : ℚ), l.foldl (fun a x => a + f x) acc = acc + (l.map f).sum := by
  intro l
  induction l with
  | nil => intro acc; simp
  | cons a t ih => intro acc; simp [List.foldl_cons, ih, add_assoc]

theorem mean_nonneg_of {α : Type} [LinearOrderedField α] (l : List α)
    (h : ∀ x ∈ l, 0 ≤ x) : 0 ≤ mean l := by
  unfold mean
  exact div_nonneg (List.sum_nonneg h) (Nat.cast_nonneg _)

theorem all_meansOf_nonneg (spreads : SpreadMap) : ∀ x ∈ all_meansOf spreads, 0 ≤ x := by
  intro x hx
  unfold all_meansOf at hx
  rw [List.mem_filterMap] at hx
  obtain ⟨tp, _, htp⟩ := hx
  by_cases h : tp.2.map Prod.snd = []
  · rw [if_pos h] at htp
    exact absurd htp (by simp)
  · rw [if_neg h] at htp
    have := Option.some_injective _ htp
    rw [← this]
    exact abs_nonneg _

theorem all_stdOf_nonneg (spreads : SpreadMap) : ∀ x ∈ all_stdOf spreads, 0 ≤ x := by
  intro x hx
  unfold all_stdOf at hx
  rw [List.mem_filterMap] at hx
  obtain ⟨tp, _, htp⟩ := hx
  by_cases h : tp.2.map Prod.snd = []
  · rw [if_pos h] at htp
    exact absurd htp (by simp)
  · rw [if_neg h] at htp
    have := Option.some_injective _ htp
    rw [← this]
    split_ifs
    · exact Real.sqrt_nonneg _
    · exact le_refl 0

theorem mean_absOf_nonneg (g : Game) : 0 ≤ mean_absOf g := by
  unfold mean_absOf
  split_ifs
  · norm_num
  · exact mean_nonneg_of _ (all_meansOf_nonneg _)

theorem mean_stdOf_nonneg (g : Game) : 0 ≤ mean_stdOf g := by
  unfold mean_stdOf
  split_ifs
  · exact le_refl 0
  · exact mean_nonneg_of _ (all_stdOf_nonneg _)

theorem ml_contrib_sum_nonneg (h2h : List (String × PriceMap)) :
    0 ≤ ((teamProbs h2h).map mlContribution).sum := by
  apply List.sum_nonneg
  intro x hx
  rw [List.mem_map] at hx
  obtain ⟨tp, _, htp⟩ := hx
  rw [← htp]
  exact abs_nonneg _

theorem ml_divergence_nonneg (h2h : List (String × PriceMap)) : 0 ≤ ml_divergence h2h := by
  have hs := ml_contrib_sum_nonneg h2h
  simp only [ml_divergence]
  split_ifs with h1 h2
  · exact le_refl 0
  · rw [foldl_add_eq_sum]
    exact div_nonneg (by linarith) (Nat.cast_nonneg _)
  · rw [foldl_add_eq_sum]
    linarith

theorem rawScore_pos (g : Game) : 0 < rawScore g := by
  unfold rawScore
  have hma := mean_absOf_nonneg g
  have hms := mean_stdOf_nonneg g
  have hml := ml_divergence_nonneg (compare_lines_across_books g).h2h
  have hma' : (0 : ℝ) ≤ (mean_absOf g : ℝ) := by exact_mod_cast hma
  have hml' : (0 : ℝ) ≤ ((ml_divergence (compare_lines_across_books g).h2h : ℚ) : ℝ) := by
    exact_mod_cast hml
  have h1 : (0 : ℝ) < 1 / (1 + (mean_absOf g : ℝ)) := by positivity
  have h2 : (0 : ℝ) < 1 + mean_stdOf g * 1.2 +
      ((ml_divergence (compare_lines_across_books g).h2h : ℚ) : ℝ) * 2.0 := by nlinarith
  positivity

/-! ### Claim theorems -/

/-- C1 (counterexample): with the threshold ladder of §4.1 the grading
operation maps confidence 0.5 to "D", not to "C": 0.5 is below the "C"
threshold 0.55 and at or above the "D" threshold 0.4. -/
theorem grade_half_is_D_not_C :
    grade_from_confidence (1/2) = "D" ∧ grade_from_confidence (1/2) ≠ "C" := by
  constructor
  · norm_num [grade_from_confidence]
  · norm_num [grade_from_confidence]
    decide

/-- C1 (amended): for the fixed threshold ladder 0.85/0.7/0.55/0.4 the
grading operation maps confidence 0.9 to "A", confidence 0.5 to "D"
(0.5 falls in the [0.4, 0.55) band), and confidence 0.1 to "F". -/
theorem grade_ladder_sample_values :
    grade_from_confidence 0.9 = "A" ∧ grade_from_confidence 0.5 = "D" ∧
    grade_from_confidence 0.1 = "F" := by
  refine ⟨?_, ?_, ?_⟩ <;> norm_num [grade_from_confidence]

/-- C9: the grading operation is total over every rational input: it
returns one of exactly the five strings "A", "B", "C", "D", "F", maps
every input at or above 0.85 (including values above 1) to "A", and
maps every input below 0.4 (including negative values) to "F".
Totality over numeric inputs and the impossibility of an exception are
expressed by the function being a plain total function on ℚ. -/
theorem grade_total_five_values (c : ℚ) :
    (grade_from_confidence c = "A" ∨ grade_from_confidence c = "B" ∨
     grade_from_confidence c = "C" ∨ grade_from_confidence c = "D" ∨
     grade_from_confidence c = "F") ∧
    (0.85 ≤ c → grade_from_confidence c = "A") ∧
    (c < 0.4 → grade_from_confidence c = "F") := by
  refine ⟨?_, ?_, ?_⟩
  · unfold grade_from_confidence
    split_ifs <;> simp
  · intro h
    unfold grade_from_confidence
    rw [if_pos h]
  · intro h
    unfold grade_from_confidence
    rw [if_neg (by intro hle; linarith), if_neg (by intro hle; linarith),
        if_neg (by intro hle; linarith), if_neg (by intro hle; linarith)]

/-- C9 (witness): the clamping behaviour at inputs outside [0, 1]. -/
theorem grade_total_five_values_witness :
    grade_from_confidence 2 = "A" ∧ grade_from_confidence (-1) = "F" :=
  ⟨(grade_total_five_values 2).2.1 (by norm_num),
   (grade_total_five_values (-1)).2.2 (by norm_num)⟩

/-- C2: the Kelly stake-sizing operation (modelled from the spec, no
such function exists in `src/main.py`) always lands in [0, 1], is 0
when `decimalOdds - 1 ≤ 0`, and is `edge / (decimalOdds - 1)` clamped
to [0, 1] otherwise; it is a total function, so it never raises. -/
theorem kellyFraction_clamped (edge o : ℚ) :
    0 ≤ kellyFraction edge o ∧ kellyFraction edge o ≤ 1 ∧
    (o - 1 ≤ 0 → kellyFraction edge o = 0) ∧
    (0 < o - 1 → kellyFraction edge o = max 0 (min 1 (edge / (o - 1)))) := by
  simp only [kellyFraction]
  split_ifs with h
  · exact ⟨le_refl 0, by norm_num, fun _ => rfl, fun hpos => absurd hpos (not_lt.mpr h)⟩
  · exact ⟨le_max_left 0 _, max_le (by norm_num) (min_le_left _ _),
      fun hle => absurd hle h, fun _ => rfl⟩

/-- C2 (witness): the clamp formula at edge 0.1, odds 3, and the
no-bet sentinel at odds 0.5. -/
theorem kellyFraction_clamped_witness :
    0 ≤ kellyFraction (1/10) 3 ∧ kellyFraction (1/10) 3 ≤ 1 ∧
    kellyFraction 1 (1/2) = 0 ∧
    kellyFraction (1/10) 3 = max 0 (min 1 ((1/10) / (3 - 1))) :=
  ⟨(kellyFraction_clamped (1/10) 3).1,
   (kellyFraction_clamped (1/10) 3).2.1,
   (kellyFraction_clamped 1 (1/2)).2.2.1 (by norm_num),
   (kellyFraction_clamped (1/10) 3).2.2.2 (by norm_num)⟩

/-- C4 (counterexample): at confidence 1/3 and odds 2 (both inside the
documented domain) the expected-value operation returns -0.3333, the
formula value -1/3 rounded to four decimal places, so it does not
return the formula value exactly. -/
theorem estimate_ev_rounds_cex :
    estimate_ev (1/3) 2 = -(3333/10000) ∧
    (1/3 : ℚ) * (2 - 1) - (1 - 1/3) = -(1/3) ∧
    ((-(3333/10000) : ℚ) ≠ -(1/3)) := by
  refine ⟨?_, by norm_num, by norm_num⟩
  unfold estimate_ev
  rw [show (1/3 : ℚ) * (2 - 1) - (1 - 1/3) = -1/3 by norm_num]
  rw [round4_eq_succ_of_gt_half (α := ℚ) (-1/3) (-3334) (by norm_num) (by norm_num)]
  norm_num

/-- C4 (amended): for every confidence and decimal odds, the
expected-value operation returns `c * (o - 1) - (1 - c)` rounded
half-to-even to four decimal places, hence always within 1/20000 of
the exact formula value. -/
theorem estimate_ev_round4_spec (c o : ℚ) :
    estimate_ev c o = round4 (c * (o - 1) - (1 - c)) ∧
    |estimate_ev c o - (c * (o - 1) - (1 - c))| ≤ 1 / 20000 :=
  ⟨rfl, round4_abs_sub_le _⟩

/-- C5 (counterexample): at confidence 0.5 and odds 1.0 the
expected-value operation returns -0.5, which is not the sentinel 0, so
the operation neither signals an InvalidOdds condition (it is a total
function into ℚ) nor uniformly returns the sentinel 0 for odds ≤ 1. -/
theorem estimate_ev_low_odds_not_sentinel_cex :
    estimate_ev (1/2) 1 = -(1/2) ∧ ((-(1/2) : ℚ) ≠ 0) := by
  refine ⟨?_, by norm_num⟩
  unfold estimate_ev
  rw [show (1/2 : ℚ) * (1 - 1) - (1 - 1/2) = -1/2 by norm_num]
  rw [round4_eq_of_lt_half (α := ℚ) (-1/2) (-5000) (by norm_num) (by norm_num)]
  norm_num

/-- C5 (amended): for decimal odds ≤ 1.0 the expected-value operation
neither raises nor returns a fixed sentinel; it uniformly applies the
same rounded formula as everywhere else, whose value is never positive
for a confidence in [0, 1]. -/
theorem estimate_ev_nonpos_on_degenerate_odds (c o : ℚ)
    (h0 : 0 ≤ c) (h1 : c ≤ 1) (ho : o ≤ 1) : estimate_ev c o ≤ 0 := by
  unfold estimate_ev
  have hz : round4 (0 : ℚ) = 0 := by
    rw [round4_eq_of_lt_half (α := ℚ) 0 0 (by norm_num) (by norm_num)]
    norm_num
  have hmono := round4_mono (α := ℚ) (x := c * (o - 1) - (1 - c)) (y := 0) (by nlinarith)
  rw [hz] at hmono
  exact hmono

/-- C5 (witness): the amended claim at confidence 0.5, odds 1.0. -/
theorem estimate_ev_nonpos_on_degenerate_odds_witness : estimate_ev (1/2) 1 ≤ 0 :=
  estimate_ev_nonpos_on_degenerate_odds (1/2) 1 (by norm_num) (by norm_num) (by norm_num)

/-- C7: the expected-value operation is monotone non-decreasing in the
decimal odds for every fixed confidence in [0, 1], and monotone
non-decreasing in the confidence for every fixed odds above 1.  (At
confidence 0 the value is constant in the odds, and the four-decimal
rounding produces plateaus, so the monotonicity is the weak one; the
spec itself asserts `expectedValue(0, o) = -1` for all o, so its
"monotonically increasing" can only mean non-decreasing.) -/
theorem estimate_ev_monotone :
    (∀ c o₁ o₂ : ℚ, 0 ≤ c → c ≤ 1 → 1 < o₁ → o₁ ≤ o₂ →
        estimate_ev c o₁ ≤ estimate_ev c o₂) ∧
    (∀ c₁ c₂ o : ℚ, 0 ≤ c₁ → c₁ ≤ c₂ → c₂ ≤ 1 → 1 < o →
        estimate_ev c₁ o ≤ estimate_ev c₂ o) := by
  constructor
  · intro c o₁ o₂ hc0 hc1 ho1 ho12
    unfold estimate_ev
    exact round4_mono (by nlinarith)
  · intro c₁ c₂ o h0 h12 h21 ho
    unfold estimate_ev
    exact round4_mono (by nlinarith)

/-- C7 (witness): monotonicity instances in each argument. -/
theorem estimate_ev_monotone_witness :
    estimate_ev (1/2) 2 ≤ estimate_ev (1/2) 3 ∧
    estimate_ev (1/4) 2 ≤ estimate_ev (3/4) 2 :=
  ⟨estimate_ev_monotone.1 (1/2) 2 3 (by norm_num) (by norm_num) (by norm_num) (by norm_num),
   estimate_ev_monotone.2 (1/4) (3/4) 2 (by norm_num) (by norm_num) (by norm_num) (by norm_num)⟩

/-- Evaluation helper: for a game whose comparison yields a single
team with a single non-negative spread point and no h2h entries, the
un-rounded score collapses to `1 / (1 + v)`. -/
theorem rawScore_single_spread (g : Game) (t b : String) (v : ℚ)
    (hsp : (compare_lines_across_books g).spreads = [(t, [(b, v)])])
    (hh : (compare_lines_across_books g).h2h = [])
    (hv : 0 ≤ v) :
    rawScore g = 1 / (1 + (v : ℝ)) := by
  have hma : mean_absOf g = v := by
    unfold mean_absOf
    rw [hsp]
    simp [all_meansOf, mean, abs_of_nonneg hv]
  have hstd : all_stdOf [(t, [(b, v)])] = [(0 : ℝ)] := by
    unfold all_stdOf
    simp
  have hms : mean_stdOf g = 0 := by
    unfold mean_stdOf
    rw [hsp, hstd]
    norm_num [mean]
  have hml : ml_divergence (compare_lines_across_books g).h2h = 0 := by
    rw [hh]
    simp [ml_divergence]
  unfold rawScore
  rw [hma, hms, hml]
  push_cast
  ring

/-- C3 (counterexample): for a game where two books quote moneyline
prices 1.0 and 3.0 for the same team, the code's moneyline stepyields
divergence 0 (it averages the prices to 2.0 first and only then
converts, giving probability 0.5), while the claimed per-price
conversion (0.5 for the guarded price 1.0, 1/3 for price 3.0, averaged
to 5/12) yields 1/12. -/
theorem ml_divergence_averages_prices_first_cex :
    ml_divergence (compare_lines_across_books gameTwoPrices).h2h = 0 ∧
    mlDivergenceSpecC3 (compare_lines_across_books gameTwoPrices).h2h = 1/12 := by
  have hh : (compare_lines_across_books gameTwoPrices).h2h
      = [("B1", [("T", some 1)]), ("B2", [("T", some 3)])] := rfl
  have htp : teamProbs [("B1", [("T", some (1:ℚ))]), ("B2", [("T", some 3)])]
      = [("T", [1, 3])] := rfl
  rw [hh]
  constructor
  · simp only [ml_divergence, htp]
    norm_num [mlContribution, mean]
  · simp only [mlDivergenceSpecC3, htp]
    norm_num [mean]

/-- C3 (amended): the moneyline step of the sharp-score computation
averages each subject's observed prices across books first and then
converts that average to an implied probability (1/avg when the
average is non-zero and above 1.01, else 0.5); `mlDivergence` is the
average over subjects of the absolute distance of that probability
from 0.5. -/
theorem ml_divergence_eq_avgFirst (h2h : List (String × PriceMap)) :
    ml_divergence h2h = mlDivergenceAvgFirst h2h := by
  simp only [ml_divergence, mlDivergenceAvgFirst]
  by_cases h1 : h2h = []
  · rw [if_pos h1, h1]
    rw [if_pos (show teamProbs ([] : List (String × PriceMap)) = [] from rfl)]
  · rw [if_neg h1]
    by_cases h2 : teamProbs h2h = []
    · rw [if_neg (not_not_intro h2), if_pos h2, foldl_add_eq_sum, h2]
      simp
    · rw [if_pos h2, if_neg h2, foldl_add_eq_sum, zero_add]
      rfl

/-- C6 (counterexample): for a game with a single spread point of 3
from a single book, the code's `all_means` list contains that
subject's mean 3 (and the score reflects it: the result is 0.25),
while the claimed two-or-more-books rule would have produced an empty
list. -/
theorem single_book_subject_contributes_cex :
    all_meansOf (compare_lines_across_books gameOneSpread).spreads = [3] ∧
    all_meansSpecC6 (compare_lines_across_books gameOneSpread).spreads = [] ∧
    compute_sharp_score gameOneSpread = 1/4 := by
  have hsp : (compare_lines_across_books gameOneSpread).spreads
      = [("T", [("B1", 3)])] := rfl
  refine ⟨?_, ?_, ?_⟩
  · rw [hsp]
    simp [all_meansOf, List.filterMap_cons, mean]
  · rw [hsp]
    norm_num [all_meansSpecC6]
  · have hraw := rawScore_single_spread gameOneSpread "T" "B1" 3 rfl rfl (by norm_num)
    unfold compute_sharp_score
    rw [if_neg (by rw [hsp]; simp), hraw]
    rw [show (1 : ℝ) / (1 + ((3:ℚ) : ℝ)) = 1/4 by norm_num]
    rw [round4_eq_of_lt_half (α := ℝ) (1/4) 2500 (by norm_num) (by norm_num)]
    norm_num

/-- C6 (amended): in the spread step every subject with at least one
numeric spread point contributes: the absolute value of the mean of
its observed values enters the `all_means` list, and its population
standard deviation - taken to be 0 when the subject has fewer than two
values - enters the `all_std` list; subjects listed by a single book
are not excluded. -/
theorem spread_stats_include_all_nonempty_subjects (spreads : SpreadMap)
    (t : String) (pts : List (String × ℚ)) (hmem : (t, pts) ∈ spreads) (hne : pts ≠ []) :
    |mean (pts.map Prod.snd)| ∈ all_meansOf spreads ∧
    (if 1 < (pts.map Prod.snd).length then pstdev (pts.map Prod.snd) else 0)
      ∈ all_stdOf spreads := by
  have hv : pts.map Prod.snd ≠ [] := by simpa using hne
  constructor
  · unfold all_meansOf
    rw [List.mem_filterMap]
    exact ⟨(t, pts), hmem, by rw [if_neg hv]⟩
  · unfold all_stdOf
    rw [List.mem_filterMap]
    exact ⟨(t, pts), hmem, by rw [if_neg hv]⟩

/-- C6 (witness): a subject quoted by a single book contributes mean 3
and standard deviation 0. -/
theorem spread_stats_include_singletons_witness :
    (3 : ℚ) ∈ all_meansOf [("T", [("B", 3)])] ∧ (0 : ℝ) ∈ all_stdOf [("T", [("B", 3)])] := by
  have h := spread_stats_include_all_nonempty_subjects [("T", [("B", 3)])] "T" [("B", 3)]
    (by simp) (by simp)
  constructor
  · have hm := h.1
    norm_num [mean] at hm
    exact hm
  · have hs := h.2
    norm_num at hs
    exact hs

/-- C8: a game record with no numeric spread quote anywhere (in
particular one with an empty bookmaker list) gets sharp score exactly
0; the embedding is a total function, so no exception is possible. -/
theorem sharp_score_zero_of_no_spreads (g : Game)
    (h : ∀ b ∈ g.bookmakers, ∀ m ∈ b.markets, m.key = "spreads" →
        ∀ o ∈ m.outcomes, o.point = none) :
    compute_sharp_score g = 0 := by
  have hsp : (compare_lines_across_books g).spreads = [] := by
    unfold compare_lines_across_books
    exact foldl_bookStep_spreads g.bookmakers h ⟨[], [], []⟩
  unfold compute_sharp_score
  rw [if_pos hsp]

/-- C8 (witness): the record of the spec's example,
`{"home_team": "A", "away_team": "B", "bookmakers": []}`. -/
theorem sharp_score_zero_of_no_spreads_witness :
    compute_sharp_score ⟨"A", "B", []⟩ = 0 :=
  sharp_score_zero_of_no_spreads ⟨"A", "B", []⟩ (by simp)

/-- C10 (counterexample): a game carrying one numeric spread point
(20000, from one book) whose sharp score is exactly 0: the un-rounded
score 1/20001 is below 0.00005, so the four-decimal rounding returns
0.0 even though a spread point is present. -/
theorem sharp_score_rounds_to_zero_cex :
    (compare_lines_across_books gameHugeSpread).spreads = [("T", [("B1", 20000)])] ∧
    compute_sharp_score gameHugeSpread = 0 := by
  have hsp : (compare_lines_across_books gameHugeSpread).spreads
      = [("T", [("B1", 20000)])] := rfl
  refine ⟨hsp, ?_⟩
  have hraw := rawScore_single_spread gameHugeSpread "T" "B1" 20000 rfl rfl (by norm_num)
  unfold compute_sharp_score
  rw [if_neg (by rw [hsp]; simp), hraw]
  rw [show (1 : ℝ) / (1 + ((20000:ℚ) : ℝ)) = 1/20001 by norm_num]
  rw [round4_eq_of_lt_half (α := ℝ) (1/20001) 0 (by norm_num) (by norm_num)]
  norm_num

/-- C10 (amended): the sharp score is never negative, and for a game
whose comparison finds at least one subject with a numeric spread
point the un-rounded score is strictly positive. (After the
four-decimal rounding the returned value can still be exactly 0, as
the counterexample shows.) -/
theorem sharp_score_nonneg_and_raw_pos :
    (∀ g : Game, 0 ≤ compute_sharp_score g) ∧
    (∀ g : Game, (compare_lines_across_books g).spreads ≠ [] → 0 < rawScore g) := by
  constructor
  · intro g
    unfold compute_sharp_score
    split_ifs
    · exact le_refl 0
    · exact round4_nonneg (le_of_lt (rawScore_pos g))
  · intro g _
    exact rawScore_pos g

/-- C10 (witness): non-negativity at the empty game and strict
positivity of the un-rounded score at a game with a spread point. -/
theorem sharp_score_nonneg_and_raw_pos_witness :
    0 ≤ compute_sharp_score ⟨"A", "B", []⟩ ∧ 0 < rawScore gameHugeSpread :=
  ⟨sharp_score_nonneg_and_raw_pos.1 ⟨"A", "B", []⟩,
   sharp_score_nonneg_and_raw_pos.2 gameHugeSpread (by
     rw [show (compare_lines_across_books gameHugeSpread).spreads
         = [("T", [("B1", 20000)])] from rfl]
     simp)⟩
